import Mathlib

/-!
Verification of the Gaussian-prime counting engine (`gaussianprimes.py`).

The embedding translates the source file:
* `GaussInt` with its lazily memoized `norm`/`isprime` (the pure value-level
  model `GaussInt`, plus a state-level model `GaussIntState` for the
  memoization claims);
* `ti_no_waste`, the incremental counter over a growable 2D grid;
* `ti`, the fresh non-incremental counter.

Radii are modeled as rationals (the source feeds arbitrary real radii such as
numpy floats); `int(np.sqrt(r))` is modeled by `intSqrt?`, returning `none`
for negative `r` (where `np.sqrt` yields NaN and `int(NaN)` raises).
-/

namespace GaussianPrimes

/-- Model of `sympy.isprime` (black-box rational-integer primality test):
true exactly on positive rational primes, false on everything else
(including all negative inputs). -/
def ratPrime (n : ℤ) : Bool := decide (Nat.Prime n.toNat)

/-- Value-level model of the `GaussInt` class: the lattice point `a + b*i`.
The lazy memoization of `norm`/`isprime` has no effect on values, so the
derived quantities are plain functions (see `GaussIntState` below for the
state-level model of the memoization). -/
structure GaussInt where
  a : ℤ
  b : ℤ
deriving DecidableEq, Repr

/-- `GaussInt.norm`: `self.a**2 + self.b**2`. -/
def GaussInt.norm (g : GaussInt) : ℤ := g.a ^ 2 + g.b ^ 2

/-- `GaussInt.isprime`: the primality oracle's case analysis, in source
order: `(0,0)` not prime; `(1,0)` not prime; `(1,1)` prime; `b == 0` and
`a % 4 == 3` and `sp.isprime(a)` prime; otherwise `sp.isprime(norm)`.
(Python's `%` on a positive modulus agrees with `Int.emod`.) -/
def GaussInt.isprime (g : GaussInt) : Bool :=
  if g.a = 0 ∧ g.b = 0 then false
  else if g.a = 1 ∧ g.b = 0 then false
  else if g.a = 1 ∧ g.b = 1 then true
  else if g.b = 0 ∧ g.a % 4 = 3 ∧ ratPrime g.a then true
  else ratPrime g.norm

/-- State-level model of a `GaussInt` object: coordinates plus the
`var_isprime`/`var_norm` memo fields set up by `__init__`. -/
structure GaussIntState where
  a : ℤ
  b : ℤ
  var_isprime : Option Bool
  var_norm : Option ℤ
deriving DecidableEq

/-- The body of `__init__` after the type check: stores `a` and `b`
unchanged and clears both memo fields. -/
def mkGaussIntState (a b : ℤ) : GaussIntState := ⟨a, b, none, none⟩

/-- A call of the `norm` method on an object: computes and stores
`a**2 + b**2` on the first call, returns the memo thereafter.  Returns the
value together with the resulting object state. -/
def normCall (s : GaussIntState) : ℤ × GaussIntState :=
  match s.var_norm with
  | none => (s.a ^ 2 + s.b ^ 2, { s with var_norm := some (s.a ^ 2 + s.b ^ 2) })
  | some v => (v, s)

/-- Dynamically typed constructor arguments, for the `isinstance` check in
`__init__` (a Python caller can pass a non-integer). -/
inductive PyVal where
  | int (n : ℤ)
  | float (x : ℚ)
  | str (s : String)
deriving DecidableEq

/-- `GaussInt.__init__`: raises (`Except.error`) unless both arguments are
integers, otherwise stores them unchanged with empty memo fields. -/
def gaussIntNew : PyVal → PyVal → Except String GaussIntState
  | PyVal.int a, PyVal.int b => Except.ok (mkGaussIntState a b)
  | _, _ => Except.error "GaussInt must be given two integers"

/-- The counting condition used by both `ti` and `ti_no_waste`:
`d.norm() <= r and d.isprime()`. -/
def primeHit (r : ℚ) (d : GaussInt) : Bool :=
  decide ((d.norm : ℚ) ≤ r) && d.isprime

/-- Floor of the real square root of a natural number: the greatest `m ≤ n`
with `m * m ≤ n` (an executable rendering; equal to `Nat.sqrt`, see
`natSqrt_eq`). -/
def natSqrt (n : ℕ) : ℕ := Nat.findGreatest (fun m => m * m ≤ n) n

/-- `int(np.sqrt(r))` for a real radius: `⌊√r⌋` when `r ≥ 0`; for `r < 0`,
`np.sqrt` returns NaN and `int(NaN)` raises, modeled as `none`.
(For real `r ≥ 0`, `⌊√r⌋ = ⌊√⌊r⌋⌋`.) -/
def intSqrt? (r : ℚ) : Option ℕ :=
  if r < 0 then Option.none else Option.some (natSqrt (Rat.floor r).toNat)

/-- The value of `int(np.sqrt(r))` for `r ≥ 0`. -/
def pyIntSqrt (r : ℚ) : ℕ := natSqrt (Rat.floor r).toNat

/-- The entries the inner `for b in range(min_b, int(np.sqrt(r)) + 1)` loop
constructs for row `a`: `GaussInt(a, b)` for `b ∈ [minB, L]`. -/
def rowExt (a minB L : ℕ) : List GaussInt :=
  (List.range' minB (L + 1 - minB)).map fun b : ℕ => (⟨(a : ℤ), (b : ℤ)⟩ : GaussInt)

/-- One iteration of the outer `for a in range(0, int(np.sqrt(r)) + 1)` loop
of `ti_no_waste`: append a fresh row when `a >= orig_min_a` and pick the
starting column, then run the inner `b` loop, which counts the new points
and appends them to row `a`. -/
def tiStep (r : ℚ) (origMinA origMinB L : ℕ) (acc : ℕ × List (List GaussInt))
    (a : ℕ) : ℕ × List (List GaussInt) :=
  let minB := if origMinA ≤ a then 0 else origMinB
  let g1 := if origMinA ≤ a then acc.2 ++ [[]] else acc.2
  let es := rowExt a minB L
  (acc.1 + es.countP (primeHit r), g1.set a (g1.getD a [] ++ es))

/-- The whole extension loop of `ti_no_waste` (Step 2). -/
def tiLoop (r : ℚ) (origMinA origMinB L : ℕ)
    (acc : ℕ × List (List GaussInt)) : ℕ × List (List GaussInt) :=
  (List.range (L + 1)).foldl (tiStep r origMinA origMinB L) acc

/-- Body of `ti_no_waste` once `ints[0]` exists and the square root
succeeded: `orig_min_a = len(ints)`, `orig_min_b = len(ints[0])`, Step 1
counts the already-materialized entries, Step 2 is `tiLoop`. -/
def tiBody (r : ℚ) (L : ℕ) (ints : List (List GaussInt)) : ℕ × List (List GaussInt) :=
  tiLoop r ints.length ints.headI.length L
    ((ints.map fun row => row.countP (primeHit r)).sum, ints)

/-- `ti_no_waste(r, ints)` for an explicitly passed grid: `none` models a
raised exception (`ints[0]` on an empty grid, or `int(np.sqrt(r))` on a
negative radius); otherwise `(sum, ints)`. -/
def tiNoWaste (r : ℚ) (ints : List (List GaussInt)) : Option (ℕ × List (List GaussInt)) :=
  if ints.isEmpty then Option.none
  else (intSqrt? r).map fun L => tiBody r L ints

/-- The default seed grid built when `ints is None`:
`[[GaussInt(0,0), GaussInt(0,1)], [GaussInt(1,0), GaussInt(1,1)]]`. -/
def seedGrid : List (List GaussInt) :=
  [[⟨0, 0⟩, ⟨0, 1⟩], [⟨1, 0⟩, ⟨1, 1⟩]]

/-- `ti_no_waste(r)` with the argument defaulted. -/
def tiNoWasteDefault (r : ℚ) : Option (ℕ × List (List GaussInt)) :=
  tiNoWaste r seedGrid

/-- Row `a` of a fully materialized rectangular region:
`[GaussInt(a,0), …, GaussInt(a,w-1)]`. -/
def rectRow (a w : ℕ) : List GaussInt :=
  (List.range w).map fun b : ℕ => (⟨(a : ℤ), (b : ℤ)⟩ : GaussInt)

/-- A fully materialized grid of `m` rows of width `w`. -/
def rectGrid (m w : ℕ) : List (List GaussInt) :=
  (List.range m).map fun a => rectRow a w

/-- A fully materialized square grid of size `n`. -/
def canonGrid (n : ℕ) : List (List GaussInt) := rectGrid n n

/-- The double counting loop of `ti` over the square `[0,t-1] × [0,t-1]`. -/
def sqCount (r : ℚ) (t : ℕ) : ℕ :=
  ((List.range t).map fun a => (rectRow a t).countP (primeHit r)).sum

/-- `ti(r)`: the fresh count over `[0, int(np.sqrt(r))]²`; `none` models the
raised exception on a negative radius. -/
def ti (r : ℚ) : Option ℕ :=
  (intSqrt? r).map fun L => sqCount r (L + 1)

/-- The value `ti` returns for a valid radius. -/
def tiVal (r : ℚ) : ℕ := sqCount r (pyIntSqrt r + 1)

/-- `count` calls chained with grid reuse: each call receives the grid the
previous call returned; the accumulated count is the most recent call's. -/
def runCalls (rs : List ℚ) (g : List (List GaussInt)) :
    Option (ℕ × List (List GaussInt)) :=
  rs.foldlM (fun acc r => tiNoWaste r acc.2) (0, g)

/-- The §3 grid-shape invariant: the entry stored at position `b` of row `a`
has coordinates exactly `(a, b)` (rows are dense by construction in the list
model; absent rows are read as `[]`). -/
def coordInv (g : List (List GaussInt)) : Prop :=
  ∀ a b : ℕ, b < (g.getD a []).length →
    (g.getD a []).getD b ⟨0, 0⟩ = (⟨(a : ℤ), (b : ℤ)⟩ : GaussInt)

/-- Row `a` of the grid part-way through Step 2 of `ti_no_waste` on input
`rectGrid m w`, after the outer loop has processed `a ∈ [0, k)`. -/
def midRow (m w L k a : ℕ) : List GaussInt :=
  if a < m then (if a < k then rectRow a w ++ rowExt a w L else rectRow a w)
  else rowExt a 0 L

/-- The grid part-way through Step 2 of `ti_no_waste` on input
`rectGrid m w`, after the outer loop has processed `a ∈ [0, k)`. -/
def midGrid (m w L k : ℕ) : List (List GaussInt) :=
  (List.range (max m k)).map (midRow m w L k)

/-- The count contributed by outer-loop iteration `a` of Step 2 on input
`rectGrid m w`. -/
def extRowCount (r : ℚ) (m w L a : ℕ) : ℕ :=
  (rowExt a (if m ≤ a then 0 else w) L).countP (primeHit r)

/-- The count accumulated by Step 2 after the outer loop has processed
`a ∈ [0, k)`, on input `rectGrid m w`. -/
def midCount (r : ℚ) (m w L k : ℕ) : ℕ :=
  ((List.range k).map (extRowCount r m w L)).sum

/-- The count produced by Step 1 of `ti_no_waste` on input `rectGrid m w`. -/
def preCount (r : ℚ) (m w : ℕ) : ℕ :=
  ((List.range m).map fun a => (rectRow a w).countP (primeHit r)).sum

/-- A concrete grid satisfying the §3 shape invariant whose rows do not all
share row 0's length: row 0 has length 1, row 1 has length 2. -/
def raggedGrid : List (List GaussInt) := [[⟨0, 0⟩], [⟨1, 0⟩, ⟨1, 1⟩]]

theorem natSqrt_eq (n : ℕ) : natSqrt n = Nat.sqrt n := by
  unfold natSqrt
  refine le_antisymm ?_ (Nat.le_findGreatest (Nat.sqrt_le_self n) (Nat.sqrt_le n))
  have h := Nat.findGreatest_spec (P := fun m => m * m ≤ n) (m := 0) (Nat.zero_le n) (by simp)
  exact Nat.le_sqrt.2 h

theorem length_rectRow (a w : ℕ) : (rectRow a w).length = w := by
  rw [rectRow, List.length_map, List.length_range]

theorem length_rectGrid (m w : ℕ) : (rectGrid m w).length = m := by
  simp [rectGrid]

theorem length_midGrid (m w L k : ℕ) : (midGrid m w L k).length = max m k := by
  simp [midGrid]

theorem getElem_midGrid {m w L k i : ℕ} (h : i < (midGrid m w L k).length) :
    (midGrid m w L k)[i] = midRow m w L k i := by
  simp [midGrid]

theorem getD_lt {α : Type*} (l : List α) (d : α) {i : ℕ} (h : i < l.length) :
    l.getD i d = l[i] := List.getD_eq_getElem l d h

theorem getD_ge {α : Type*} (l : List α) (d : α) {i : ℕ} (h : l.length ≤ i) :
    l.getD i d = d := by
  simp [List.getD_eq_getElem?_getD, List.getElem?_eq_none h]

theorem getD_concat_length {α : Type*} (l : List α) (x d : α) :
    (l ++ [x]).getD l.length d = x := by
  have h : l.length < (l ++ [x]).length := by simp
  rw [getD_lt _ _ h, List.getElem_append_right (Nat.le_refl _)]
  simp

theorem set_concat_length {α : Type*} (l : List α) (x y : α) :
    (l ++ [x]).set l.length y = l ++ [y] := by
  rw [List.set_append_right _ _ (Nat.le_refl _)]
  simp

theorem midGrid_zero (m w L : ℕ) : midGrid m w L 0 = rectGrid m w := by
  unfold midGrid rectGrid
  rw [Nat.max_zero]
  refine List.map_congr_left fun a ha => ?_
  rw [List.mem_range] at ha
  simp [midRow, ha]

/-- Loop invariant for Step 2 of `ti_no_waste` on a grid whose rows all
have width `w`: after the first `k` iterations of the outer loop, the
accumulated state is `midCount`/`midGrid`. -/
theorem tiLoop_range (r : ℚ) (m w L s0 : ℕ) :
    ∀ k : ℕ, (List.range k).foldl (tiStep r m w L) (s0, rectGrid m w) =
      (s0 + midCount r m w L k, midGrid m w L k) := by
  intro k
  induction k with
  | zero => simp [midCount, midGrid_zero]
  | succ k ih =>
    rw [List.range_succ, List.foldl_append, ih]
    have hcnt : midCount r m w L (k + 1) = midCount r m w L k + extRowCount r m w L k := by
      simp [midCount, List.range_succ]
    simp only [List.foldl_cons, List.foldl_nil]
    by_cases hk : m ≤ k
    · -- new-row iteration: a fresh row is appended and filled from b = 0
      have hmaxk : max m k = k := max_eq_right hk
      have hlen : (midGrid m w L k).length = k := by rw [length_midGrid, hmaxk]
      have hgetD : ((midGrid m w L k) ++ [[]]).getD k [] = ([] : List GaussInt) := by
        have h := getD_concat_length (midGrid m w L k) ([] : List GaussInt) ([] : List GaussInt)
        rwa [hlen] at h
      have hset : ((midGrid m w L k) ++ [[]]).set k (rowExt k 0 L) =
          midGrid m w L k ++ [rowExt k 0 L] := by
        have h := set_concat_length (midGrid m w L k) ([] : List GaussInt) (rowExt k 0 L)
        rwa [hlen] at h
      have hgrid : midGrid m w L k ++ [rowExt k 0 L] = midGrid m w L (k + 1) := by
        unfold midGrid
        rw [max_eq_right (Nat.le_succ_of_le hk), hmaxk, List.range_succ, List.map_append]
        congr 1
        · refine List.map_congr_left fun i hi => ?_
          rw [List.mem_range] at hi
          by_cases him : i < m <;> simp [midRow, him, hi, Nat.lt_succ_of_lt hi]
        · simp [midRow, Nat.not_lt.2 hk]
      rw [tiStep, hcnt]
      simp only [if_pos hk]
      rw [hgetD, List.nil_append, hset, hgrid, extRowCount, if_pos hk, Nat.add_assoc]
    · -- pre-existing-row iteration: row k is extended in place from b = w
      have hkm : k < m := Nat.not_le.1 hk
      have hmaxk : max m k = m := max_eq_left (Nat.le_of_lt hkm)
      have hmaxk1 : max m (k + 1) = m := max_eq_left hkm
      have hklen : k < (midGrid m w L k).length := by rw [length_midGrid, hmaxk]; exact hkm
      have hgetD : (midGrid m w L k).getD k [] = rectRow k w := by
        rw [getD_lt _ _ hklen, getElem_midGrid hklen]
        simp [midRow, hkm]
      have hgrid : (midGrid m w L k).set k (rectRow k w ++ rowExt k w L) =
          midGrid m w L (k + 1) := by
        apply List.ext_getElem
        · simp [length_midGrid, hmaxk, hmaxk1]
        · intro i h1 h2
          rw [List.getElem_set, getElem_midGrid h2]
          rw [List.length_set, length_midGrid, hmaxk] at h1
          by_cases hik : k = i
          · subst hik
            simp [midRow, hkm, Nat.lt_succ_self]
          · rw [if_neg hik, getElem_midGrid (by rw [length_midGrid, hmaxk]; exact h1)]
            unfold midRow
            by_cases him : i < m
            · have : i < k ↔ i < k + 1 := by omega
              simp [him, this]
            · simp [him]
      rw [tiStep, hcnt]
      simp only [if_neg hk]
      rw [hgetD, hgrid, extRowCount, if_neg hk, Nat.add_assoc]

theorem headI_rectGrid (m w : ℕ) (hm : 1 ≤ m) : (rectGrid m w).headI = rectRow 0 w := by
  obtain ⟨m', rfl⟩ : ∃ m', m = m' + 1 := ⟨m - 1, by omega⟩
  rw [rectGrid, List.range_succ_eq_map]
  rfl

/-- Step 1 and Step 2 of `ti_no_waste` on a fully materialized grid of `m`
rows of width `w`. -/
theorem tiBody_rect (r : ℚ) (L m w : ℕ) (hm : 1 ≤ m) :
    tiBody r L (rectGrid m w) =
      (preCount r m w + midCount r m w L (L + 1), midGrid m w L (L + 1)) := by
  rw [tiBody, length_rectGrid, headI_rectGrid m w hm, length_rectRow]
  have hs1 : ((rectGrid m w).map fun row => row.countP (primeHit r)).sum = preCount r m w := by
    rw [rectGrid, List.map_map, preCount]
    rfl
  rw [hs1, tiLoop, tiLoop_range]

/-- `ti_no_waste` on a fully materialized grid of `m ≥ 1` rows of width `w`,
for a non-negative radius. -/
theorem tiNoWaste_rect (r : ℚ) (hr : 0 ≤ r) (m w : ℕ) (hm : 1 ≤ m) :
    tiNoWaste r (rectGrid m w) =
      some (preCount r m w + midCount r m w (pyIntSqrt r) (pyIntSqrt r + 1),
        midGrid m w (pyIntSqrt r) (pyIntSqrt r + 1)) := by
  have hne : (rectGrid m w).isEmpty = false := by
    rw [List.isEmpty_eq_false]
    exact List.ne_nil_of_length_pos (by rw [length_rectGrid]; omega)
  rw [tiNoWaste, hne, if_neg Bool.false_ne_true, intSqrt?, if_neg (not_lt.2 hr)]
  rw [Option.map_some']
  exact congrArg some (tiBody_rect r (pyIntSqrt r) m w hm)

theorem rowExt_eq_nil {w L : ℕ} (a : ℕ) (h : L + 1 ≤ w) : rowExt a w L = [] := by
  rw [rowExt, Nat.sub_eq_zero_of_le h]
  rfl

theorem rowExt_zero (a L : ℕ) : rowExt a 0 L = rectRow a (L + 1) := by
  rw [rowExt, rectRow, Nat.sub_zero, List.range_eq_range']

theorem rectRow_append_rowExt (a : ℕ) {w L : ℕ} (h : w ≤ L + 1) :
    rectRow a w ++ rowExt a w L = rectRow a (L + 1) := by
  rw [rectRow, rectRow, rowExt, ← List.map_append]
  congr 1
  rw [List.range_eq_range', List.range_eq_range']
  have h2 := List.range'_append_1 0 w (L + 1 - w)
  rwa [Nat.zero_add, Nat.sub_add_cancel h] at h2

theorem range_split {n t : ℕ} (h : n ≤ t) :
    List.range t = List.range n ++ List.range' n (t - n) := by
  rw [List.range_eq_range', List.range_eq_range']
  have h2 := List.range'_append_1 0 n (t - n)
  rw [Nat.zero_add, Nat.sub_add_cancel h] at h2
  exact h2.symm

theorem sum_map_add (l : List ℕ) (f g : ℕ → ℕ) :
    (l.map fun a => f a + g a).sum = (l.map f).sum + (l.map g).sum := by
  induction l with
  | nil => rfl
  | cons x t ih => simp [ih]; omega

theorem ratFloor_eq (r : ℚ) : Rat.floor r = ⌊r⌋ :=
  (Rat.floor_def' r).trans Rat.floor_def.symm

/-- Any lattice point with a coordinate beyond `int(np.sqrt(r))` has norm
exceeding `r`, so it never satisfies the counting condition. -/
theorem primeHit_big (r : ℚ) (hr : 0 ≤ r) (a b : ℕ)
    (h : pyIntSqrt r < a ∨ pyIntSqrt r < b) :
    primeHit r ⟨(a : ℤ), (b : ℤ)⟩ = false := by
  have hfloor : (0 : ℤ) ≤ ⌊r⌋ := Int.floor_nonneg.2 hr
  have hkey : ∀ c : ℕ, pyIntSqrt r < c → (⌊r⌋ : ℚ) < (c : ℚ) * (c : ℚ) := by
    intro c hc
    rw [pyIntSqrt, natSqrt_eq, ratFloor_eq] at hc
    have h1 : (⌊r⌋).toNat < c * c := Nat.sqrt_lt.1 hc
    have h2 : (⌊r⌋ : ℤ) < (c : ℤ) * (c : ℤ) := by
      rw [← Int.toNat_of_nonneg hfloor]
      exact_mod_cast h1
    exact_mod_cast h2
  have hnorm : r < ((GaussInt.norm ⟨(a : ℤ), (b : ℤ)⟩ : ℤ) : ℚ) := by
    have hlt : (⌊r⌋ : ℚ) < ((GaussInt.norm ⟨(a : ℤ), (b : ℤ)⟩ : ℤ) : ℚ) := by
      rw [GaussInt.norm]
      push_cast
      rcases h with h | h
      · have := hkey a h
        nlinarith [sq_nonneg ((b : ℚ)), sq_nonneg ((a : ℚ))]
      · have := hkey b h
        nlinarith [sq_nonneg ((b : ℚ)), sq_nonneg ((a : ℚ))]
    have hfl : r < (⌊r⌋ : ℚ) + 1 := Int.lt_floor_add_one r
    have hint : (⌊r⌋ : ℚ) + 1 ≤ ((GaussInt.norm ⟨(a : ℤ), (b : ℤ)⟩ : ℤ) : ℚ) := by
      have : ⌊r⌋ + 1 ≤ GaussInt.norm ⟨(a : ℤ), (b : ℤ)⟩ := by exact_mod_cast hlt
      exact_mod_cast this
    linarith
  rw [primeHit, decide_eq_false (not_le.2 hnorm)]
  rfl

/-- The square-region count is unchanged by enlarging the square beyond
`int(np.sqrt(r)) + 1`: the extra points all have norm exceeding `r`. -/
theorem sqCount_stab (r : ℚ) (hr : 0 ≤ r) (t : ℕ) (ht : pyIntSqrt r + 1 ≤ t) :
    sqCount r t = sqCount r (pyIntSqrt r + 1) := by
  set T := pyIntSqrt r + 1 with hT
  have hrow : ∀ a : ℕ, (rectRow a t).countP (primeHit r) = (rectRow a T).countP (primeHit r) := by
    intro a
    rw [rectRow, rectRow, range_split ht, List.map_append, List.countP_append]
    have hz : ((List.range' T (t - T)).map fun b : ℕ =>
        (⟨(a : ℤ), (b : ℤ)⟩ : GaussInt)).countP (primeHit r) = 0 := by
      rw [List.countP_eq_zero]
      intro x hx
      rw [List.mem_map] at hx
      obtain ⟨b, hb, rfl⟩ := hx
      rw [List.mem_range'_1] at hb
      simp [primeHit_big r hr a b (Or.inr (by omega))]
    omega
  rw [sqCount, sqCount, range_split ht, List.map_append, List.sum_append]
  have hz2 : ((List.range' T (t - T)).map fun a => (rectRow a t).countP (primeHit r)).sum = 0 := by
    apply List.sum_eq_zero
    intro x hx
    rw [List.mem_map] at hx
    obtain ⟨a, ha, rfl⟩ := hx
    rw [List.mem_range'_1] at ha
    rw [List.countP_eq_zero]
    intro x hx
    rw [rectRow, List.mem_map] at hx
    obtain ⟨b, hb, rfl⟩ := hx
    simp [primeHit_big r hr a b (Or.inl (by omega))]
  rw [hz2, Nat.add_zero]
  exact congrArg List.sum (List.map_congr_left fun a ha => hrow a)

theorem midGrid_canon (n L : ℕ) :
    midGrid n n L (L + 1) = canonGrid (max n (L + 1)) := by
  rcases le_or_lt (L + 1) n with hc | hc
  · rw [max_eq_left hc]
    unfold midGrid canonGrid rectGrid
    rw [max_eq_left hc]
    refine List.map_congr_left fun a ha => ?_
    rw [List.mem_range] at ha
    by_cases haL : a < L + 1 <;> simp [midRow, ha, haL, rowExt_eq_nil a hc]
  · have hn' : n ≤ L + 1 := le_of_lt hc
    rw [max_eq_right hn']
    unfold midGrid canonGrid rectGrid
    rw [max_eq_right hn']
    refine List.map_congr_left fun a ha => ?_
    rw [List.mem_range] at ha
    by_cases han : a < n
    · simp [midRow, han, Nat.lt_of_lt_of_le han hn', rectRow_append_rowExt a hn']
    · simp [midRow, han, rowExt_zero]

theorem midCount_canon (r : ℚ) (n L : ℕ) :
    preCount r n n + midCount r n n L (L + 1) = sqCount r (max n (L + 1)) := by
  rcases le_or_lt (L + 1) n with hc | hc
  · rw [max_eq_left hc]
    have hz : midCount r n n L (L + 1) = 0 := by
      apply List.sum_eq_zero
      intro x hx
      rw [List.mem_map] at hx
      obtain ⟨a, ha, rfl⟩ := hx
      rw [List.mem_range] at ha
      rw [extRowCount, if_neg (by omega), rowExt_eq_nil a hc]
      rfl
    rw [hz, Nat.add_zero]
    rfl
  · have hn' : n ≤ L + 1 := le_of_lt hc
    rw [max_eq_right hn']
    rw [sqCount, range_split hn', List.map_append, List.sum_append]
    rw [midCount, range_split hn', List.map_append, List.sum_append]
    have e1 : ((List.range n).map (extRowCount r n n L)).sum =
        ((List.range n).map fun a => (rowExt a n L).countP (primeHit r)).sum := by
      refine congrArg List.sum (List.map_congr_left fun a ha => ?_)
      rw [List.mem_range] at ha
      rw [extRowCount, if_neg (by omega)]
    have e2 : ((List.range' n (L + 1 - n)).map (extRowCount r n n L)).sum =
        ((List.range' n (L + 1 - n)).map fun a =>
          (rectRow a (L + 1)).countP (primeHit r)).sum := by
      refine congrArg List.sum (List.map_congr_left fun a ha => ?_)
      rw [List.mem_range'_1] at ha
      rw [extRowCount, if_pos (by omega), rowExt_zero]
    have e3 : ((List.range n).map fun a => (rectRow a (L + 1)).countP (primeHit r)).sum =
        preCount r n n + ((List.range n).map fun a => (rowExt a n L).countP (primeHit r)).sum := by
      rw [preCount, ← sum_map_add]
      refine congrArg List.sum (List.map_congr_left fun a ha => ?_)
      rw [← rectRow_append_rowExt a hn', List.countP_append]
    rw [e1, e2, e3]
    omega

/-- `ti_no_waste` on a fully materialized square grid of size `n ≥ 1` with
radius `r ≥ 0`: the count is the full square count over
`max n (int(np.sqrt(r)) + 1)`, and the grid becomes the square of that
size. -/
theorem tiNoWaste_canon (r : ℚ) (hr : 0 ≤ r) (n : ℕ) (hn : 1 ≤ n) :
    tiNoWaste r (canonGrid n) =
      some (sqCount r (max n (pyIntSqrt r + 1)), canonGrid (max n (pyIntSqrt r + 1))) := by
  rw [canonGrid, tiNoWaste_rect r hr n n hn, midCount_canon r n (pyIntSqrt r),
    midGrid_canon n (pyIntSqrt r)]

theorem ti_eq (r : ℚ) (hr : 0 ≤ r) : ti r = some (tiVal r) := by
  rw [ti, intSqrt?, if_neg (not_lt.2 hr), Option.map_some']
  rfl

theorem seedGrid_eq : seedGrid = canonGrid 2 := by decide

/-- Chained `count` calls starting from any square grid keep the grid
square (it only ever grows), and the last call returns the fresh count
`tiVal` of the last radius. -/
theorem run_canon (rs : List ℚ) (hrs : ∀ x ∈ rs, 0 ≤ x) :
    ∀ n : ℕ, 1 ≤ n → ∀ s : ℕ,
      ∃ n' c, n ≤ n' ∧ 1 ≤ n' ∧
        rs.foldlM (fun acc r => tiNoWaste r acc.2)
            ((s, canonGrid n) : ℕ × List (List GaussInt)) = some (c, canonGrid n') ∧
        (rs = [] → c = s) ∧ (∀ h : rs ≠ [], c = tiVal (rs.getLast h)) := by
  induction rs with
  | nil =>
    intro n hn s
    exact ⟨n, s, Nat.le_refl n, hn, by simp, fun _ => rfl, fun h => absurd rfl h⟩
  | cons r rs ih =>
    intro n hn s
    have hr : 0 ≤ r := hrs r (List.mem_cons_self r rs)
    have hrs' : ∀ x ∈ rs, 0 ≤ x := fun x hx => hrs x (List.mem_cons_of_mem r hx)
    have hstab : sqCount r (max n (pyIntSqrt r + 1)) = tiVal r := by
      rw [tiVal]
      exact sqCount_stab r hr _ (le_max_right n (pyIntSqrt r + 1))
    obtain ⟨n', c, hle, hn', heq, hnil, hlast⟩ :=
      ih hrs' (max n (pyIntSqrt r + 1)) (le_trans hn (le_max_left _ _))
        (sqCount r (max n (pyIntSqrt r + 1)))
    refine ⟨n', c, le_trans (le_max_left _ _) hle, hn', ?_, ?_, ?_⟩
    · rw [List.foldlM_cons]
      show (tiNoWaste r (canonGrid n)).bind _ = _
      rw [tiNoWaste_canon r hr n hn, Option.some_bind]
      exact heq
    · intro h
      exact absurd h (List.cons_ne_nil r rs)
    · intro h
      cases rs with
      | nil =>
        rw [List.getLast_singleton, hnil rfl, hstab]
      | cons r' rs' =>
        rw [List.getLast_cons (List.cons_ne_nil r' rs')]
        exact hlast (List.cons_ne_nil r' rs')

theorem getElem_rectRow {a w b : ℕ} (h : b < (rectRow a w).length) :
    (rectRow a w)[b] = (⟨(a : ℤ), (b : ℤ)⟩ : GaussInt) := by
  simp [rectRow]

theorem getD_canonGrid (n a : ℕ) :
    (canonGrid n).getD a [] = if a < n then rectRow a n else [] := by
  by_cases h : a < n
  · rw [if_pos h]
    have hl : a < (canonGrid n).length := by rw [canonGrid, length_rectGrid]; exact h
    rw [getD_lt _ _ hl]
    simp [canonGrid, rectGrid]
  · rw [if_neg h]
    exact getD_ge _ _ (by rw [canonGrid, length_rectGrid]; omega)

theorem getD_midGrid {m w L k i : ℕ} (h : i < max m k) :
    (midGrid m w L k).getD i [] = midRow m w L k i := by
  rw [getD_lt _ _ (by rw [length_midGrid]; exact h)]
  exact getElem_midGrid (by rw [length_midGrid]; exact h)

theorem coordInv_canonGrid (n : ℕ) : coordInv (canonGrid n) := by
  intro a b hb
  rw [getD_canonGrid] at hb ⊢
  by_cases h : a < n
  · rw [if_pos h] at hb ⊢
    rw [length_rectRow] at hb
    rw [getD_lt _ _ (by rw [length_rectRow]; exact hb)]
    exact getElem_rectRow (by rw [length_rectRow]; exact hb)
  · rw [if_neg h] at hb
    exact absurd hb (by simp)

/-- A grid with `n` rows, each of length `n`, whose entry at position `b`
of row `a` has coordinates `(a, b)`, is exactly the canonical square. -/
theorem square_eq_canon (g : List (List GaussInt)) (n : ℕ) (hlen : g.length = n)
    (hrow : ∀ row ∈ g, row.length = n) (hcoord : coordInv g) : g = canonGrid n := by
  apply List.ext_getElem
  · rw [hlen, canonGrid, length_rectGrid]
  · intro a h1 h2
    have hcg : (canonGrid n)[a] = rectRow a n := by
      simp [canonGrid, rectGrid]
    rw [hcg]
    have hrl : (g[a]).length = n := hrow _ (List.getElem_mem h1)
    apply List.ext_getElem
    · rw [hrl, length_rectRow]
    · intro b hb1 hb2
      have hc := hcoord a b (by rw [getD_lt _ _ h1]; exact hb1)
      rw [getD_lt _ _ h1, getD_lt _ _ hb1] at hc
      rw [hc]
      exact (getElem_rectRow (by rw [length_rectRow]; omega)).symm

theorem coordInv_raggedGrid : coordInv raggedGrid := by
  intro a b hb
  rcases a with _ | _ | a
  · rcases b with _ | b
    · rfl
    · simp [raggedGrid] at hb
  · rcases b with _ | _ | b
    · rfl
    · rfl
    · simp [raggedGrid] at hb
      omega
  · simp [raggedGrid] at hb

/-- C2: `isprime` follows the documented precedence — `(0,0)`, `(1,0)` not
prime, `(1,1)` prime, real-axis inert primes (`b = 0`, `a ≡ 3 mod 4`, `a`
rational-prime) prime even though their norm `a²` is composite, and
otherwise primality of the norm decides — witnessed on all seven known
values, with rule 4 proved in general. -/
theorem isprime_known_values :
    GaussInt.isprime ⟨0, 0⟩ = false ∧ GaussInt.isprime ⟨1, 0⟩ = false ∧
    GaussInt.isprime ⟨1, 1⟩ = true ∧ GaussInt.isprime ⟨3, 0⟩ = true ∧
    GaussInt.isprime ⟨2, 0⟩ = false ∧ GaussInt.isprime ⟨1, 2⟩ = true ∧
    GaussInt.isprime ⟨2, 2⟩ = false ∧ ratPrime ((⟨3, 0⟩ : GaussInt).norm) = false ∧
    ∀ a : ℤ, a % 4 = 3 → ratPrime a = true → GaussInt.isprime ⟨a, 0⟩ = true := by
  refine ⟨by decide, by decide, by decide, by decide, by decide, by decide, by decide,
    by decide, ?_⟩
  intro a h1 h2
  have hne0 : ¬(a = 0 ∧ (0 : ℤ) = 0) := by
    rintro ⟨rfl, -⟩
    exact absurd h1 (by decide)
  have hne1 : ¬(a = 1 ∧ (0 : ℤ) = 0) := by
    rintro ⟨rfl, -⟩
    exact absurd h1 (by decide)
  have hne2 : ¬(a = 1 ∧ (0 : ℤ) = 1) := by
    rintro ⟨-, hc⟩
    exact absurd hc (by decide)
  rw [GaussInt.isprime, if_neg hne0, if_neg hne1, if_neg hne2, if_pos ⟨rfl, h1, h2⟩]

theorem isprime_known_values_witness : GaussInt.isprime ⟨7, 0⟩ = true :=
  isprime_known_values.2.2.2.2.2.2.2.2 7 (by decide) (by decide)

/-- C9: the oracle has no special case for the imaginary axis: `(0,3)`
falls through to the norm rule and is not prime only because its norm `9`
happens to be composite, while `(3,0)` on the real axis is prime. -/
theorem imaginary_axis_norm_rule :
    GaussInt.isprime ⟨0, 3⟩ = false ∧
    GaussInt.isprime ⟨0, 3⟩ = ratPrime ((⟨0, 3⟩ : GaussInt).norm) ∧
    (⟨0, 3⟩ : GaussInt).norm = 9 ∧ ratPrime 9 = false ∧ ratPrime 3 = true ∧
    GaussInt.isprime ⟨3, 0⟩ = true := by
  refine ⟨by decide, by decide, by decide, by decide, by decide, by decide⟩

/-- C7: construction succeeds exactly when both arguments are integers
(storing them unchanged) and otherwise raises the invalid-argument error
synchronously. -/
theorem gaussIntNew_spec :
    (∀ v w : PyVal, (∃ s, gaussIntNew v w = Except.ok s) ↔
      ∃ a b : ℤ, v = PyVal.int a ∧ w = PyVal.int b) ∧
    (∀ a b : ℤ, gaussIntNew (PyVal.int a) (PyVal.int b) = Except.ok (mkGaussIntState a b) ∧
      (mkGaussIntState a b).a = a ∧ (mkGaussIntState a b).b = b) ∧
    (∀ v w : PyVal, (∃ s, gaussIntNew v w = Except.ok s) ∨
      gaussIntNew v w = Except.error "GaussInt must be given two integers") := by
  refine ⟨fun v w => ?_, fun a b => ⟨rfl, rfl, rfl⟩, fun v w => ?_⟩
  · cases v <;> cases w <;> simp [gaussIntNew]
  · cases v <;> cases w <;> simp [gaussIntNew]

/-- C8: `norm()` returns `a*a + b*b`, matching the pure model, and once the
memo is filled every further call returns the identical value and leaves
the object unchanged. -/
theorem norm_value_and_memo : ∀ a b : ℤ,
    (normCall (mkGaussIntState a b)).1 = a * a + b * b ∧
    GaussInt.norm ⟨a, b⟩ = a * a + b * b ∧
    normCall (normCall (mkGaussIntState a b)).2 =
      ((normCall (mkGaussIntState a b)).1, (normCall (mkGaussIntState a b)).2) := by
  intro a b
  refine ⟨?_, ?_, rfl⟩
  · show a ^ 2 + b ^ 2 = a * a + b * b
    ring
  · show a ^ 2 + b ^ 2 = a * a + b * b
    ring

/-- C3 counterexample: `count(2)` from the seed grid does not return 3. -/
theorem count_two_ne_three : (tiNoWaste 2 seedGrid).map Prod.fst ≠ some 3 := by decide

/-- C3 (amended): `count(2)` from the seed grid returns count 1 — only
`(1,1)` among the four seed points is prime with norm ≤ 2 — and leaves the
grid unchanged. -/
theorem count_two_eq_one : tiNoWaste 2 seedGrid = some (1, seedGrid) := by decide

/-- C6 counterexample: for `r = -1` the call fails (models the
`int(np.sqrt(-1))` NaN conversion error); in particular it does not return
count 0. -/
theorem negative_radius_counterexample :
    tiNoWaste (-1) seedGrid = Option.none ∧
    ¬∃ g', tiNoWaste (-1) seedGrid = some (0, g') := by
  refine ⟨by decide, ?_⟩
  rintro ⟨g', hg⟩
  have h0 : tiNoWaste (-1) seedGrid = Option.none := by decide
  rw [h0] at hg
  exact Option.noConfusion hg

/-- C6 (amended): for every negative radius and every grid, `count` raises
(the `int(np.sqrt(r))` limit computation fails on NaN) and never returns a
count. -/
theorem negative_radius_raises (r : ℚ) (h : r < 0) (g : List (List GaussInt)) :
    tiNoWaste r g = Option.none := by
  rw [tiNoWaste]
  by_cases hg : g.isEmpty = true
  · rw [if_pos hg]
  · rw [if_neg hg, intSqrt?, if_pos h]
    rfl

theorem negative_radius_raises_witness :
    ((-1 : ℚ) < 0) ∧ tiNoWaste (-1) seedGrid = Option.none :=
  ⟨by norm_num, negative_radius_raises (-1) (by norm_num) seedGrid⟩

/-- C1: feeding any non-decreasing sequence of radii ending at `r ≥ 0` into
`count` with grid reuse, starting from the default seed grid, makes the
final call return exactly the fresh count `ti(r)`. -/
theorem incremental_eq_fresh (r r0 : ℚ) (rest : List ℚ) (h0 : 0 ≤ r0)
    (hchain : List.Chain (· ≤ ·) r0 rest)
    (hlast : (r0 :: rest).getLast (List.cons_ne_nil r0 rest) = r) :
    (runCalls (r0 :: rest) seedGrid).map Prod.fst = ti r := by
  have hall : ∀ x ∈ r0 :: rest, 0 ≤ x := by
    have hp := List.chain_iff_pairwise.1 hchain
    intro x hx
    rcases List.mem_cons.1 hx with rfl | hx'
    · exact h0
    · exact le_trans h0 ((List.pairwise_cons.1 hp).1 x hx')
  have hr : 0 ≤ r := by
    rw [← hlast]
    exact hall _ (List.getLast_mem _)
  obtain ⟨n', c, hle, hn', heq, hnil, hlastc⟩ :=
    run_canon (r0 :: rest) hall 2 (by omega) 0
  rw [runCalls, seedGrid_eq, heq, ti_eq r hr, Option.map_some']
  rw [hlastc (List.cons_ne_nil r0 rest), hlast]

theorem incremental_eq_fresh_witness :
    ((0 : ℚ) ≤ 0) ∧ (runCalls [0, 2] seedGrid).map Prod.fst = ti 2 :=
  ⟨le_refl 0, incremental_eq_fresh 2 0 [2] (le_refl 0)
    (List.Chain.cons (by norm_num) List.Chain.nil) rfl⟩

/-- C4: across any chained sequence of `count` calls with non-negative
radii from the seed grid, the grid after a later call extends the grid
after any earlier call — the row count and every row length are monotone —
and the entry at position `b` of row `a` always has coordinates `(a, b)`. -/
theorem grid_shape_monotone (rs₁ rs₂ : List ℚ) (h₁ : ∀ x ∈ rs₁, 0 ≤ x)
    (h₂ : ∀ x ∈ rs₂, 0 ≤ x) :
    ∃ c₁ g₁ c₂ g₂, runCalls rs₁ seedGrid = some (c₁, g₁) ∧
      runCalls (rs₁ ++ rs₂) seedGrid = some (c₂, g₂) ∧
      g₁.length ≤ g₂.length ∧
      (∀ a : ℕ, (g₁.getD a []).length ≤ (g₂.getD a []).length) ∧
      coordInv g₁ ∧ coordInv g₂ := by
  obtain ⟨n₁, c₁, hle₁, hn₁, heq₁, -, -⟩ := run_canon rs₁ h₁ 2 (by omega) 0
  obtain ⟨n₂, c₂, hle₂, hn₂, heq₂, -, -⟩ := run_canon rs₂ h₂ n₁ hn₁ c₁
  refine ⟨c₁, canonGrid n₁, c₂, canonGrid n₂, ?_, ?_, ?_, ?_,
    coordInv_canonGrid n₁, coordInv_canonGrid n₂⟩
  · rw [runCalls, seedGrid_eq]
    exact heq₁
  · rw [runCalls, seedGrid_eq, List.foldlM_append, heq₁]
    exact heq₂
  · rw [canonGrid, canonGrid, length_rectGrid, length_rectGrid]
    exact hle₂
  · intro a
    rw [getD_canonGrid, getD_canonGrid]
    by_cases ha₁ : a < n₁
    · rw [if_pos ha₁, if_pos (by omega), length_rectRow, length_rectRow]
      exact hle₂
    · rw [if_neg ha₁]
      by_cases ha₂ : a < n₂
      · rw [if_pos ha₂]
        exact Nat.zero_le _
      · rw [if_neg ha₂]

theorem grid_shape_monotone_witness :
    (∀ x ∈ [(0 : ℚ)], 0 ≤ x) ∧ (∀ x ∈ [(2 : ℚ)], 0 ≤ x) ∧
    ∃ c₁ g₁ c₂ g₂, runCalls [(0 : ℚ)] seedGrid = some (c₁, g₁) ∧
      runCalls ([(0 : ℚ)] ++ [(2 : ℚ)]) seedGrid = some (c₂, g₂) ∧
      g₁.length ≤ g₂.length ∧
      (∀ a : ℕ, (g₁.getD a []).length ≤ (g₂.getD a []).length) ∧
      coordInv g₁ ∧ coordInv g₂ :=
  ⟨by decide, by decide, grid_shape_monotone [0] [2] (by decide) (by decide)⟩

/-- C10: a `count` call whose radius is already covered by a square grid of
size `n` (with `int(np.sqrt(r)) + 1 ≤ n` and correct coordinates) appends
nothing: it returns the grid unchanged together with the re-scanned
count. -/
theorem covered_radius_frame (r : ℚ) (n : ℕ) (g : List (List GaussInt)) (hr : 0 ≤ r)
    (hlen : g.length = n) (hrow : ∀ row ∈ g, row.length = n) (hcoord : coordInv g)
    (hlim : pyIntSqrt r + 1 ≤ n) :
    tiNoWaste r g = some (sqCount r n, g) := by
  have hg : g = canonGrid n := square_eq_canon g n hlen hrow hcoord
  rw [hg, tiNoWaste_canon r hr n (by omega), max_eq_left hlim]

theorem covered_radius_frame_witness :
    ((0 : ℚ) ≤ 1) ∧ (pyIntSqrt 1 + 1 ≤ 2) ∧
    tiNoWaste 1 seedGrid = some (sqCount 1 2, seedGrid) :=
  ⟨by norm_num, by decide,
    covered_radius_frame 1 2 seedGrid (by norm_num) (by decide) (by decide)
      (by rw [seedGrid_eq]; exact coordInv_canonGrid 2) (by decide)⟩

/-- C5 counterexample: on the shape-invariant grid whose row 1 is longer
than row 0, the call re-appends the already-materialized cell `(1,1)` (it
starts row 1 at row 0's length, not at row 1's own length), so row 1 ends
up as `[(1,0),(1,1),(1,1),(1,2)]` with `(1,1)` stored twice. -/
theorem step2_own_length_counterexample :
    coordInv raggedGrid ∧
    (tiNoWaste 4 raggedGrid).map (fun p => p.2.getD 1 []) =
      some [⟨1, 0⟩, ⟨1, 1⟩, ⟨1, 1⟩, ⟨1, 2⟩] ∧
    (tiNoWaste 4 raggedGrid).map (fun p => (p.2.getD 1 []).countP fun x => x = ⟨1, 1⟩) =
      some 2 :=
  ⟨coordInv_raggedGrid, by decide, by decide⟩

/-- C5 (amended): Step 2 starts every pre-existing row at row 0's length
`orig_min_b`; on grids whose rows all share row 0's length `w` — which
includes every grid `count` itself produces — this is each row's own
length, so rows at indices `a ≤ limit` are extended exactly by the cells
`(a, w), …, (a, limit)`, rows beyond the limit are untouched, new rows
start at `b = 0`, and no materialized cell is recomputed or re-appended. -/
theorem step2_uniform_rows (r : ℚ) (hr : 0 ≤ r) (m w : ℕ) (hm : 1 ≤ m) :
    ∃ c g', tiNoWaste r (rectGrid m w) = some (c, g') ∧
      g'.length = max m (pyIntSqrt r + 1) ∧
      (∀ a, a < m → a ≤ pyIntSqrt r →
        g'.getD a [] = rectRow a w ++ rowExt a w (pyIntSqrt r)) ∧
      (∀ a, a < m → pyIntSqrt r < a → g'.getD a [] = rectRow a w) ∧
      (∀ a, m ≤ a → a ≤ pyIntSqrt r → g'.getD a [] = rowExt a 0 (pyIntSqrt r)) := by
  refine ⟨_, _, tiNoWaste_rect r hr m w hm, ?_, ?_, ?_, ?_⟩
  · rw [length_midGrid]
  · intro a ham haL
    rw [getD_midGrid (by omega)]
    rw [midRow, if_pos ham, if_pos (by omega : a < pyIntSqrt r + 1)]
  · intro a ham haL
    rw [getD_midGrid (by omega)]
    rw [midRow, if_pos ham, if_neg (by omega : ¬a < pyIntSqrt r + 1)]
  · intro a ham haL
    rw [getD_midGrid (by omega)]
    rw [midRow, if_neg (by omega : ¬a < m)]

theorem step2_uniform_rows_witness :
    ((0 : ℚ) ≤ 4) ∧ (1 ≤ 2) ∧
    ∃ c g', tiNoWaste 4 (rectGrid 2 2) = some (c, g') ∧
      g'.length = max 2 (pyIntSqrt 4 + 1) ∧
      (∀ a, a < 2 → a ≤ pyIntSqrt 4 →
        g'.getD a [] = rectRow a 2 ++ rowExt a 2 (pyIntSqrt 4)) ∧
      (∀ a, a < 2 → pyIntSqrt 4 < a → g'.getD a [] = rectRow a 2) ∧
      (∀ a, 2 ≤ a → a ≤ pyIntSqrt 4 → g'.getD a [] = rowExt a 0 (pyIntSqrt 4)) :=
  ⟨by norm_num, by omega, step2_uniform_rows 4 (by norm_num) 2 2 (by omega)⟩

end GaussianPrimes
